import Mathlib

/-!
# Verification of the document-similarity pipeline (`main.py`)

This file gives a shallow embedding of the plagiarism-checker program and
settles the specification claims about it.

The program under verification is:

* `read_file`: reads a file, trying UTF-8 and falling back to GBK with
  errors ignored; exits with status 1 on a missing path / non-file path.
* `preprocess_text`: segments the text with a pluggable deterministic
  tokenizer (`jieba.cut` in the source), drops whitespace-only tokens and
  stop-listed tokens, and joins the survivors with single spaces.
* `calculate_similarity`: runs `TfidfVectorizer(max_features=3000)` over the
  two preprocessed strings and returns the cosine similarity of the two rows.
* `main`: checks `len(sys.argv) != 4`, reads both files, computes the
  similarity and writes it.

The vectorizer call is embedded following the library's documented default
behaviour: the analyzer lowercases the document and extracts maximal runs of
at least two word characters (token pattern `\b\w\w+\b`); the vocabulary is
the set of extracted terms sorted lexicographically by code points; when more
than `max_features` distinct terms exist, the terms with the largest summed
counts are kept; term weights are `tf * (ln((1+n)/(1+df)) + 1)` with `n = 2`
(smoothed idf) and every row is L2-normalised; an entirely empty vocabulary
(both documents yield no terms) raises `ValueError`, which we model with
`Option.none`.  Real-number arithmetic stands in for floating point.

The tokenizer (`jieba.cut`) is an external deterministic segmenter; it is a
function parameter `cut : String → List String` throughout, exactly as the
specification describes it ("exact algorithm is pluggable, but must be
deterministic for identical input").
-/

namespace PlagiarismCheck

/-! ## Code-point lexicographic order on strings

Python sorts the vocabulary with plain string comparison, i.e. by Unicode
code points.  We use a structural Boolean comparator so that all concrete
computations reduce in the kernel. -/

/-- Lexicographic `≤` on character lists, comparing code points. -/
def lexLeB : List Char → List Char → Bool
  | [], _ => true
  | _ :: _, [] => false
  | c :: cs, d :: ds =>
    if c.toNat < d.toNat then true
    else if d.toNat < c.toNat then false
    else lexLeB cs ds

/-- Code-point lexicographic order on strings (Python string `<=`). -/
def alphaLe (s t : String) : Prop := lexLeB s.data t.data = true

instance : DecidableRel alphaLe := fun s t =>
  inferInstanceAs (Decidable (lexLeB s.data t.data = true))

theorem eq_of_toNat_eq {c d : Char} (h : c.toNat = d.toNat) : c = d :=
  Char.ext_iff.mpr (UInt32.ext h)

theorem lexLeB_cons_lt {c d : Char} (h : c.toNat < d.toNat) (cs ds : List Char) :
    lexLeB (c :: cs) (d :: ds) = true := by
  simp [lexLeB, h]

theorem lexLeB_cons_gt {c d : Char} (h : d.toNat < c.toNat) (cs ds : List Char) :
    lexLeB (c :: cs) (d :: ds) = false := by
  simp [lexLeB, h, Nat.lt_asymm h]

theorem lexLeB_cons_eq {c d : Char} (h : c.toNat = d.toNat) (cs ds : List Char) :
    lexLeB (c :: cs) (d :: ds) = lexLeB cs ds := by
  simp [lexLeB, h, Nat.lt_irrefl]

theorem lexLeB_total : ∀ xs ys : List Char, lexLeB xs ys = true ∨ lexLeB ys xs = true
  | [], _ => Or.inl rfl
  | _ :: _, [] => Or.inr rfl
  | c :: cs, d :: ds => by
    rcases Nat.lt_trichotomy c.toNat d.toNat with h | h | h
    · exact Or.inl (lexLeB_cons_lt h cs ds)
    · rw [lexLeB_cons_eq h, lexLeB_cons_eq h.symm]
      exact lexLeB_total cs ds
    · exact Or.inr (lexLeB_cons_lt h ds cs)

theorem lexLeB_trans : ∀ xs ys zs : List Char,
    lexLeB xs ys = true → lexLeB ys zs = true → lexLeB xs zs = true
  | [], _, _, _, _ => rfl
  | _ :: _, [], _, h, _ => by simp [lexLeB] at h
  | _ :: _, _ :: _, [], _, h => by simp [lexLeB] at h
  | c :: cs, d :: ds, e :: es, h1, h2 => by
    rcases Nat.lt_trichotomy c.toNat d.toNat with hcd | hcd | hcd
    · rcases Nat.lt_trichotomy d.toNat e.toNat with hde | hde | hde
      · exact lexLeB_cons_lt (Nat.lt_trans hcd hde) cs es
      · exact lexLeB_cons_lt (hde ▸ hcd) cs es
      · rw [lexLeB_cons_gt hde] at h2; exact absurd h2 (by simp)
    · rcases Nat.lt_trichotomy d.toNat e.toNat with hde | hde | hde
      · exact lexLeB_cons_lt (hcd ▸ hde) cs es
      · rw [lexLeB_cons_eq hcd] at h1
        rw [lexLeB_cons_eq hde] at h2
        rw [lexLeB_cons_eq (hcd.trans hde)]
        exact lexLeB_trans cs ds es h1 h2
      · rw [lexLeB_cons_gt hde] at h2; exact absurd h2 (by simp)
    · rw [lexLeB_cons_gt hcd] at h1; exact absurd h1 (by simp)

theorem lexLeB_antisymm : ∀ xs ys : List Char,
    lexLeB xs ys = true → lexLeB ys xs = true → xs = ys
  | [], [], _, _ => rfl
  | [], _ :: _, _, h => by simp [lexLeB] at h
  | _ :: _, [], h, _ => by simp [lexLeB] at h
  | c :: cs, d :: ds, h1, h2 => by
    rcases Nat.lt_trichotomy c.toNat d.toNat with hcd | hcd | hcd
    · rw [lexLeB_cons_gt hcd] at h2; exact absurd h2 (by simp)
    · rw [lexLeB_cons_eq hcd] at h1
      rw [lexLeB_cons_eq hcd.symm] at h2
      rw [eq_of_toNat_eq hcd, lexLeB_antisymm cs ds h1 h2]
    · rw [lexLeB_cons_gt hcd] at h1; exact absurd h1 (by simp)

instance : IsTotal String alphaLe := ⟨fun s t => lexLeB_total s.data t.data⟩

instance : IsTrans String alphaLe :=
  ⟨fun _ _ _ h1 h2 => lexLeB_trans _ _ _ h1 h2⟩

instance : IsAntisymm String alphaLe := by
  constructor
  intro s t h1 h2
  have hd : s.data = t.data := lexLeB_antisymm _ _ h1 h2
  cases s; cases t; cases hd; rfl

/-! ## The vectorizer's analyzer (sklearn defaults)

`TfidfVectorizer` is called with only `max_features=3000`; all other options
are the documented defaults: `lowercase=True` (the document is lowercased
before token extraction) and `token_pattern=r"(?u)\b\w\w+\b"` (tokens are
maximal runs of at least two word characters; single characters and
punctuation are discarded). -/

/-- Model of Python's `str.lower` on the ASCII range: uppercase ASCII letters
(code points 65–90) are shifted by 32 to their lowercase counterparts, every
other character (digits, punctuation, CJK ideographs, ...) is unchanged. -/
def pyLower (c : Char) : Char :=
  if c.toNat < 65 then c
  else if 90 < c.toNat then c
  else Char.ofNat (c.toNat + 32)

/-- Lowercasing a whole string (model of Python `str.lower`). -/
def pyLowerStr (s : String) : String := String.mk (s.data.map pyLower)

theorem toNat_ofNat_valid {n : ℕ} (h : n.isValidChar) : (Char.ofNat n).toNat = n := by
  rw [Char.ofNat, dif_pos h]
  rfl

theorem pyLower_eq_self {c : Char} (h : c.toNat < 65 ∨ 90 < c.toNat) : pyLower c = c := by
  unfold pyLower
  rcases h with h | h
  · rw [if_pos h]
  · by_cases h' : c.toNat < 65
    · rw [if_pos h']
    · rw [if_neg h', if_pos h]

theorem toNat_pyLower_of_upper {c : Char} (h1 : 65 ≤ c.toNat) (h2 : c.toNat ≤ 90) :
    (pyLower c).toNat = c.toNat + 32 := by
  unfold pyLower
  rw [if_neg (by omega), if_neg (by omega)]
  exact toNat_ofNat_valid (Or.inl (by omega))

theorem pyLower_idem (c : Char) : pyLower (pyLower c) = pyLower c := by
  by_cases h1 : c.toNat < 65
  · rw [pyLower_eq_self (Or.inl h1), pyLower_eq_self (Or.inl h1)]
  · by_cases h2 : 90 < c.toNat
    · rw [pyLower_eq_self (Or.inr h2), pyLower_eq_self (Or.inr h2)]
    · have ht : (pyLower c).toNat = c.toNat + 32 :=
        toNat_pyLower_of_upper (by omega) (by omega)
      exact pyLower_eq_self (Or.inr (by omega))

/-- A word character for the default token pattern `(?u)\b\w\w+\b`: Python's
`\w` restricted to the character classes this program actually meets —
ASCII alphanumerics, the underscore and CJK unified ideographs. -/
def isWordChar (c : Char) : Bool :=
  c.isAlphanum || c == '_' || (0x4E00 ≤ c.toNat && c.toNat ≤ 0x9FFF)

/-- `runsP p l` is the list of maximal runs of characters satisfying `p`,
in order; characters not satisfying `p` merely separate runs.  This is the
match list of the regular expression `p+` over `l`. -/
def runsP (p : Char → Bool) : List Char → List (List Char)
  | [] => []
  | c :: cs =>
    if p c then
      match cs with
      | [] => [[c]]
      | c' :: _ =>
        if p c' then (c :: (runsP p cs).headD []) :: (runsP p cs).tail
        else [c] :: runsP p cs
    else runsP p cs

theorem runsP_cons_neg {p : Char → Bool} {c : Char} (cs : List Char) (h : p c = false) :
    runsP p (c :: cs) = runsP p cs := by
  simp [runsP, h]

theorem runsP_cons_pos {p : Char → Bool} {c : Char} (h : p c = true) :
    ∀ cs : List Char,
      runsP p (c :: cs) = (c :: cs.takeWhile p) :: runsP p (cs.dropWhile p)
  | [] => by simp [runsP, h]
  | c' :: cs' => by
    by_cases h' : p c' = true
    · have hrec : runsP p (c' :: cs') =
          (c' :: cs'.takeWhile p) :: runsP p (cs'.dropWhile p) :=
        runsP_cons_pos h' cs'
      have hstep : runsP p (c :: c' :: cs') =
          (c :: (runsP p (c' :: cs')).headD []) :: (runsP p (c' :: cs')).tail := by
        rw [runsP]
        simp [h, h']
      rw [hstep, hrec]
      simp [List.takeWhile_cons, List.dropWhile_cons, h']
    · have h'f : p c' = false := by revert h'; cases p c' <;> simp
      have hstep : runsP p (c :: c' :: cs') = [c] :: runsP p (c' :: cs') := by
        rw [runsP]
        simp [h, h'f]
      rw [hstep]
      simp [List.takeWhile_cons, List.dropWhile_cons, h'f]

theorem takeWhile_append_sep {p : Char → Bool} {sep : Char} (hsep : p sep = false) :
    ∀ (xs ys : List Char), (xs ++ sep :: ys).takeWhile p = xs.takeWhile p
  | [], _ => by simp [List.takeWhile_cons, hsep]
  | x :: xs, ys => by
    by_cases hx : p x = true
    · simp [List.takeWhile_cons, hx, takeWhile_append_sep hsep xs ys]
    · have hxf : p x = false := by revert hx; cases p x <;> simp
      simp [List.takeWhile_cons, hxf]

theorem dropWhile_append_sep {p : Char → Bool} {sep : Char} (hsep : p sep = false) :
    ∀ (xs ys : List Char), (xs ++ sep :: ys).dropWhile p = xs.dropWhile p ++ sep :: ys
  | [], _ => by simp [List.dropWhile_cons, hsep]
  | x :: xs, ys => by
    by_cases hx : p x = true
    · simp [List.dropWhile_cons, hx, dropWhile_append_sep hsep xs ys]
    · have hxf : p x = false := by revert hx; cases p x <;> simp
      simp [List.dropWhile_cons, hxf]

theorem runsP_append_sep_aux {p : Char → Bool} {sep : Char} (hsep : p sep = false) :
    ∀ (n : ℕ) (xs : List Char), xs.length ≤ n →
      ∀ ys, runsP p (xs ++ sep :: ys) = runsP p xs ++ runsP p ys := by
  intro n
  induction n with
  | zero =>
    intro xs hxs ys
    rcases List.length_eq_zero.mp (Nat.le_zero.mp hxs) with rfl
    rw [List.nil_append, runsP_cons_neg _ hsep]
    rfl
  | succ n ih =>
    intro xs hxs ys
    rcases xs with _ | ⟨x, xs'⟩
    · rw [List.nil_append, runsP_cons_neg _ hsep]
      rfl
    · by_cases hx : p x = true
      · have hd : (xs'.dropWhile p).length ≤ n := by
          have hsl : (xs'.dropWhile p).Sublist xs' := List.dropWhile_sublist _
          have := hsl.length_le
          simp only [List.length_cons] at hxs
          omega
        rw [List.cons_append, runsP_cons_pos hx, runsP_cons_pos hx,
          takeWhile_append_sep hsep, dropWhile_append_sep hsep,
          ih (xs'.dropWhile p) hd ys, List.cons_append]
      · have hxf : p x = false := by revert hx; cases p x <;> simp
        have hd : xs'.length ≤ n := by
          simp only [List.length_cons] at hxs
          omega
        rw [List.cons_append, runsP_cons_neg _ hxf, runsP_cons_neg _ hxf,
          ih xs' hd ys]

/-- A separator character splits the run decomposition. -/
theorem runsP_append_sep {p : Char → Bool} {sep : Char} (hsep : p sep = false)
    (xs ys : List Char) : runsP p (xs ++ sep :: ys) = runsP p xs ++ runsP p ys :=
  runsP_append_sep_aux hsep xs.length xs le_rfl ys

theorem data_append (s t : String) : (s ++ t).data = s.data ++ t.data := rfl

/-- The vectorizer's analyzer with default settings: lowercase the document,
then extract the maximal word-character runs of length at least 2
(token pattern `(?u)\b\w\w+\b`). -/
def analyze (doc : String) : List String :=
  ((runsP isWordChar (doc.data.map pyLower)).filter (fun r => 2 ≤ r.length)).map
    (fun r => String.mk r)

/-- Python's `' '.join`. -/
def joinTokens : List String → String
  | [] => ""
  | [w] => w
  | w :: x :: xs => w ++ " " ++ joinTokens (x :: xs)

theorem analyze_append_space (s t : String) :
    analyze (s ++ " " ++ t) = analyze s ++ analyze t := by
  have hdata : (s ++ " " ++ t).data = s.data ++ ' ' :: t.data := by
    rw [data_append, data_append]
    rw [List.append_assoc]
    rfl
  unfold analyze
  rw [hdata, List.map_append, List.map_cons, show pyLower ' ' = ' ' from rfl,
    runsP_append_sep (by decide), List.filter_append, List.map_append]

/-- The analyzer distributes over space-joined token lists. -/
theorem analyze_joinTokens : ∀ ts : List String,
    analyze (joinTokens ts) = (ts.map analyze).flatten
  | [] => by
    show analyze "" = _
    simp [analyze, runsP]
  | [t] => by simp [joinTokens]
  | t :: x :: xs => by
    show analyze (t ++ " " ++ joinTokens (x :: xs)) = _
    rw [analyze_append_space, analyze_joinTokens (x :: xs)]
    simp

theorem runsP_singleton (p : Char → Bool) (c : Char) :
    runsP p [c] = if p c then [[c]] else [] := by
  by_cases h : p c = true
  · simp [runsP, h]
  · have hf : p c = false := by revert h; cases p c <;> simp
    simp [runsP, hf]

/-- A one-character token contributes nothing to the analyzer's output
(the default token pattern requires at least two word characters). -/
theorem analyze_singleChar (t : String) (h : t.length = 1) : analyze t = [] := by
  obtain ⟨c, hc⟩ : ∃ c, t.data = [c] := List.length_eq_one.mp h
  unfold analyze
  rw [hc, List.map_cons, List.map_nil, runsP_singleton]
  by_cases hw : isWordChar (pyLower c) = true
  · simp [hw]
  · have hwf : isWordChar (pyLower c) = false := by
      revert hw; cases isWordChar (pyLower c) <;> simp
    simp [hwf]

/-- Lowercasing first does not change the analyzer's output: the analyzer
lowercases anyway. -/
theorem analyze_pyLowerStr (s : String) : analyze (pyLowerStr s) = analyze s := by
  have h : (pyLowerStr s).data.map pyLower = s.data.map pyLower := by
    show (s.data.map pyLower).map pyLower = s.data.map pyLower
    rw [List.map_map]
    exact List.map_congr_left fun c _ => pyLower_idem c
  unfold analyze
  rw [h]

/-! ## `preprocess_text` -/

/-- Python truthiness of `word.strip()`: a token is blank when it consists
solely of whitespace (in particular when it is empty). -/
def isBlank (w : String) : Bool := w.data.all Char.isWhitespace

/-- The token list produced by `preprocess_text` before joining:
`[word for word in jieba.cut(text) if word.strip() and word not in stopwords]`.
The segmenter `cut` (`jieba.cut`) is an explicit function parameter. -/
def filteredTokens (stopwords : List String) (cut : String → List String)
    (text : String) : List String :=
  (cut text).filter (fun w => !(isBlank w) && !(decide (w ∈ stopwords)))

/-- `preprocess_text` from `main.py` (lines 34–51): tokenize, filter out
whitespace-only and stop-listed tokens, join with single spaces.  The
stopword set is the explicit parameter `stopwords` (the source loads it from
`stopwords.txt`, degrading to the empty set when that file is missing; both
states are covered by quantifying over `stopwords`). -/
def preprocess_text (stopwords : List String) (cut : String → List String)
    (text : String) : String :=
  joinTokens (filteredTokens stopwords cut text)

/-- The state of the stopword source (`stopwords.txt`) as the loading code
observes it: the file may be absent (`open` raises `FileNotFoundError`),
present but unreadable or not decodable as UTF-8 (`open`/`read` raises
`PermissionError` / `UnicodeDecodeError`), or readable with the given
lines. -/
inductive StopwordSource where
  | absent
  | unreadable
  | readable (lines : List String)

/-- Result of the stopword-loading step inside `preprocess_text`: either a
loaded stopword set, or an exception that propagates out of
`preprocess_text` (no result is produced). -/
inductive LoadResult where
  | loaded (stopwords : List String)
  | crash

/-- The stopword-loading step of `preprocess_text` (`main.py` lines 40–48):
`try: open("stopwords.txt") ... except FileNotFoundError: stopwords = set()`.
Only `FileNotFoundError` is caught, so an absent file degrades non-fatally
to the empty stopword set, while an existing but unreadable or non-UTF-8
file raises an exception that is *not* caught and aborts the call.
Duplicate lines collapse under the source's set semantics; the loaded set is
modelled by its list of lines, used only through membership. -/
def load_stopwords : StopwordSource → LoadResult
  | .absent => .loaded []
  | .unreadable => .crash
  | .readable lines => .loaded lines

/-- `preprocess_text` including its stopword-loading step, over the state of
the stopword source: when loading crashes, `preprocess_text` raises and
returns nothing (`none`); otherwise it filters and joins as usual with the
loaded stopword set. -/
def preprocess_textFromSource (src : StopwordSource)
    (cut : String → List String) (text : String) : Option String :=
  match load_stopwords src with
  | .crash => none
  | .loaded stopwords => some (preprocess_text stopwords cut text)

/-- A concrete deterministic segmenter used for witnesses and
counterexamples: maximal runs of non-space characters become tokens.  On the
whitespace-separated inputs used below this agrees with `jieba.cut`, which
passes through contiguous non-CJK runs and emits whitespace separately. -/
def spaceCut (s : String) : List String :=
  (runsP (fun c => !(c == ' ')) s.data).map (fun r => String.mk r)

/-! ## The vectorizer: vocabulary construction

`CountVectorizer` collects the distinct analyzed terms of both documents,
sorts the vocabulary lexicographically, and — when more than `max_features`
terms exist — keeps the `max_features` terms with the largest summed counts
over the corpus, selecting among equal counts along the sorted (alphabetical)
feature axis.  The retained terms keep their alphabetical order. -/

/-- The distinct terms occurring in either analyzed document. -/
def candidateTerms (dA dB : List String) : List String := (dA ++ dB).dedup

/-- The vocabulary before feature limiting: the distinct terms in code-point
lexicographic order (sklearn sorts the feature names). -/
def sortedCandidates (dA dB : List String) : List String :=
  List.insertionSort alphaLe (candidateTerms dA dB)

/-- Combined term frequency of a term over the two analyzed documents. -/
def totalTF (dA dB : List String) (t : String) : ℕ := (dA ++ dB).count t

/-- The selection order used for `max_features`: larger combined term
frequency first; among equal frequencies, the alphabetically smaller term
first.  The library itself fixes no tie order among equal combined counts
(its selection runs an unstable sort over the alphabetically sorted feature
axis); this relation is the stable reading of that selection, and no theorem
below depends on which tie order is taken. -/
def selR (tf : String → ℕ) (s t : String) : Prop :=
  tf t < tf s ∨ (tf s = tf t ∧ alphaLe s t)

instance (tf : String → ℕ) : DecidableRel (selR tf) := fun s t =>
  inferInstanceAs (Decidable (tf t < tf s ∨ (tf s = tf t ∧ alphaLe s t)))

instance (tf : String → ℕ) : IsTotal String (selR tf) := by
  constructor
  intro s t
  rcases Nat.lt_trichotomy (tf s) (tf t) with h | h | h
  · exact Or.inr (Or.inl h)
  · rcases total_of alphaLe s t with h' | h'
    · exact Or.inl (Or.inr ⟨h, h'⟩)
    · exact Or.inr (Or.inr ⟨h.symm, h'⟩)
  · exact Or.inl (Or.inl h)

instance (tf : String → ℕ) : IsTrans String (selR tf) := by
  constructor
  intro a b c hab hbc
  rcases hab with h1 | ⟨h1, h1'⟩ <;> rcases hbc with h2 | ⟨h2, h2'⟩
  · exact Or.inl (h2.trans h1)
  · exact Or.inl (h2 ▸ h1)
  · exact Or.inl (h1 ▸ h2)
  · exact Or.inr ⟨h1.trans h2, Trans.trans h1' h2'⟩

/-- The vocabulary used for the comparison: all distinct terms in
alphabetical order, or — when there are more than `maxFeatures` of them —
`maxFeatures` terms chosen along the sorted feature axis by descending
combined count, still listed alphabetically.  Among equal combined counts
the library's `_limit_features` uses numpy's default unstable `argsort`, so
the program guarantees no particular tie order; this definition takes the
stable reading of that selection (`selR`).  Every theorem proved below is
independent of that choice: the range and symmetry results hold for any
selection out of the sorted feature axis, and every concrete input used
below stays far under the cap, where no selection happens at all. -/
def vocabulary (maxFeatures : ℕ) (dA dB : List String) : List String :=
  if (sortedCandidates dA dB).length ≤ maxFeatures then sortedCandidates dA dB
  else
    (sortedCandidates dA dB).filter
      (fun t => decide (t ∈
        (List.insertionSort (selR (totalTF dA dB)) (sortedCandidates dA dB)).take maxFeatures))

/-! ## The vectorizer: TF-IDF weights and cosine similarity

`TfidfVectorizer` defaults: raw term counts, smoothed idf
`ln((1 + n)/(1 + df)) + 1` with `n = 2` documents, L2-normalised rows.
`cosine_similarity` L2-normalises the rows again (zero rows are left
untouched) and takes the dot product. -/

/-- Document frequency of a term over the two analyzed documents
(0, 1 or 2). -/
def dfT (dA dB : List String) (t : String) : ℕ :=
  (if 0 < dA.count t then 1 else 0) + (if 0 < dB.count t then 1 else 0)

/-- Smoothed inverse document frequency, `ln((1 + n)/(1 + df)) + 1` with
`n = 2` documents (`smooth_idf=True` default). -/
noncomputable def idfR (df : ℕ) : ℝ := Real.log ((1 + 2) / (1 + (df : ℝ))) + 1

/-- Unnormalised TF-IDF weight of term `t` in document `doc` (raw count
times smoothed idf). -/
noncomputable def rawWeight (dA dB doc : List String) (t : String) : ℝ :=
  (doc.count t : ℝ) * idfR (dfT dA dB t)

/-- Squared L2 norm of a weight function over the vocabulary axis. -/
noncomputable def sqNormW (V : List String) (w : String → ℝ) : ℝ :=
  (V.map (fun t => w t ^ 2)).sum

/-- Dot product of two weight functions over the vocabulary axis. -/
noncomputable def dotW (V : List String) (w₁ w₂ : String → ℝ) : ℝ :=
  (V.map (fun t => w₁ t * w₂ t)).sum

open Classical in
/-- L2 row normalisation as `sklearn.preprocessing.normalize` performs it:
rows of norm zero are left unchanged (`norms[norms == 0.0] = 1.0`), other
rows are divided by their norm. -/
noncomputable def normalizeW (V : List String) (w : String → ℝ) : String → ℝ :=
  if sqNormW V w = 0 then w else fun t => w t / Real.sqrt (sqNormW V w)

/-- A document's row of the TF-IDF matrix: unnormalised weights, then L2
normalisation (`norm='l2'` default). -/
noncomputable def tfidfRow (V dA dB doc : List String) : String → ℝ :=
  normalizeW V (rawWeight dA dB doc)

/-- The similarity computation of `calculate_similarity` after analysis:
build the vocabulary from both token lists, compute both TF-IDF rows and
take the cosine similarity (`cosine_similarity` normalises the rows again
and takes the dot product).  When both documents produce no terms the
vectorizer's vocabulary is empty and `fit_transform` raises
`ValueError: empty vocabulary`, modelled as `none`. -/
noncomputable def calc_simT (maxFeatures : ℕ) (dA dB : List String) : Option ℝ :=
  if candidateTerms dA dB = [] then none
  else
    some (dotW (vocabulary maxFeatures dA dB)
      (normalizeW (vocabulary maxFeatures dA dB)
        (tfidfRow (vocabulary maxFeatures dA dB) dA dB dA))
      (normalizeW (vocabulary maxFeatures dA dB)
        (tfidfRow (vocabulary maxFeatures dA dB) dA dB dB)))

/-- The vectorizer-and-scorer stage of `calculate_similarity` on the two
preprocessed (space-joined) strings. -/
noncomputable def similarityOfProcessed (p q : String) : Option ℝ :=
  calc_simT 3000 (analyze p) (analyze q)

/-- `calculate_similarity` from `main.py` (lines 54–73): preprocess both
texts, vectorize with `TfidfVectorizer(max_features=3000)` and return the
cosine similarity of the two rows.  `some r` is a returned score `r`;
`none` is the uncaught `ValueError` raised on an empty vocabulary. -/
noncomputable def calculate_similarity (stopwords : List String)
    (cut : String → List String) (original_text copied_text : String) : Option ℝ :=
  similarityOfProcessed (preprocess_text stopwords cut original_text)
    (preprocess_text stopwords cut copied_text)

/-! ## `read_file` and `main` -/

/-- Abstraction of one file-system entry as `read_file` observes it:
whether the path is a regular file, the decoded content if the bytes are
valid UTF-8, and the lossy GBK decoding (`errors='ignore'`, always
available). -/
structure FSEntry where
  isFile : Bool
  utf8 : Option String
  gbkLossy : String

/-- Result of `read_file`: either the decoded text, or a diagnostic printed
to stderr followed by `sys.exit(code)`. -/
inductive ReadResult where
  | ok (text : String)
  | fatalExit (diagnostic : String) (code : ℕ)

/-- `read_file` from `main.py` (lines 8–31) over an abstract file system
`fs` (mapping paths to entries, `none` when the path does not exist):
a missing path or a non-file path raises inside the `try`, is caught by the
generic handler which prints `读取文件错误: ...` to stderr and exits with
status 1; otherwise the UTF-8 decoding is returned if it succeeds, and the
lossy GBK decoding is returned if UTF-8 decoding fails. -/
def read_file (fs : String → Option FSEntry) (file_path : String) : ReadResult :=
  match fs file_path with
  | none => .fatalExit ("读取文件错误: 文件不存在: " ++ file_path) 1
  | some e =>
    if e.isFile = false then .fatalExit ("读取文件错误: 路径不是文件: " ++ file_path) 1
    else
      match e.utf8 with
      | some s => .ok s
      | none => .ok e.gbkLossy

/-- Outcome of one run of `main`. -/
inductive MainOutcome where
  | usageExit (code : ℕ)
  | readFailExit (code : ℕ)
  | vectorizeError
  | finished (similarity : Option ℝ)

/-- `main` from `main.py` (lines 98–124): with other than exactly three
positional arguments (`len(sys.argv) != 4`) it prints the usage line to
stderr and exits with status 1 before reading, tokenizing, scoring or
writing anything; otherwise it reads both input files (terminating if
`read_file` terminates), computes the similarity and hands it to the result
writer (`write_result`, thin I/O glue outside the core, not modelled beyond
receiving the score). -/
noncomputable def main (fs : String → Option FSEntry) (stopwords : List String)
    (cut : String → List String) (argv : List String) : MainOutcome :=
  match argv with
  | [_prog, original_path, copied_path, _result_path] =>
    match read_file fs original_path with
    | .fatalExit _ c => .readFailExit c
    | .ok original_text =>
      match read_file fs copied_path with
      | .fatalExit _ c => .readFailExit c
      | .ok copied_text =>
        match calculate_similarity stopwords cut original_text copied_text with
        | none => .vectorizeError
        | some r => .finished (some r)
  | _ => .usageExit 1

/-! ## Lemmas about sums, norms and normalisation -/

theorem sum_map_div (l : List String) (f : String → ℝ) (c : ℝ) :
    (l.map (fun x => f x / c)).sum = (l.map f).sum / c := by
  induction l with
  | nil => simp
  | cons a t ih => simp [ih, add_div]

theorem sqNormW_nonneg (V : List String) (w : String → ℝ) : 0 ≤ sqNormW V w :=
  List.sum_nonneg fun x hx => by
    obtain ⟨t, _, rfl⟩ := List.mem_map.mp hx
    exact sq_nonneg _

theorem sqNormW_eq_zero_of (V : List String) (w : String → ℝ)
    (h : ∀ t ∈ V, w t = 0) : sqNormW V w = 0 :=
  List.sum_eq_zero fun x hx => by
    obtain ⟨t, ht, rfl⟩ := List.mem_map.mp hx
    rw [h t ht]
    ring

theorem dotW_comm (V : List String) (w₁ w₂ : String → ℝ) :
    dotW V w₁ w₂ = dotW V w₂ w₁ := by
  unfold dotW
  congr 1
  exact List.map_congr_left fun t _ => mul_comm _ _

theorem dotW_self (V : List String) (w : String → ℝ) : dotW V w w = sqNormW V w := by
  unfold dotW sqNormW
  congr 1
  exact List.map_congr_left fun t _ => (sq (w t)).symm

theorem dotW_zero_left (V : List String) (w₁ w₂ : String → ℝ)
    (h : ∀ t ∈ V, w₁ t = 0) : dotW V w₁ w₂ = 0 :=
  List.sum_eq_zero fun x hx => by
    obtain ⟨t, ht, rfl⟩ := List.mem_map.mp hx
    rw [h t ht]
    ring

theorem sqNormW_normalizeW (V : List String) (w : String → ℝ) :
    sqNormW V (normalizeW V w) = if sqNormW V w = 0 then 0 else 1 := by
  by_cases h : sqNormW V w = 0
  · rw [if_pos h]
    unfold normalizeW
    rw [if_pos h]
    exact h
  · rw [if_neg h]
    have hs := sqNormW_nonneg V w
    have hrw : normalizeW V w = fun t => w t / Real.sqrt (sqNormW V w) := by
      unfold normalizeW
      rw [if_neg h]
    rw [hrw]
    show (V.map (fun t => (w t / Real.sqrt (sqNormW V w)) ^ 2)).sum = 1
    have hcg : V.map (fun t => (w t / Real.sqrt (sqNormW V w)) ^ 2)
        = V.map (fun t => w t ^ 2 / sqNormW V w) :=
      List.map_congr_left fun t _ => by rw [div_pow, Real.sq_sqrt hs]
    rw [hcg, sum_map_div]
    exact div_self h

theorem normalizeW_nonneg (V : List String) (w : String → ℝ)
    (hw : ∀ t, 0 ≤ w t) (t : String) : 0 ≤ normalizeW V w t := by
  unfold normalizeW
  by_cases h : sqNormW V w = 0
  · rw [if_pos h]
    exact hw t
  · rw [if_neg h]
    exact div_nonneg (hw t) (Real.sqrt_nonneg _)

theorem sqNorm_normalize_le_one (V : List String) (w : String → ℝ) :
    sqNormW V (normalizeW V w) ≤ 1 := by
  rw [sqNormW_normalizeW]
  split_ifs <;> norm_num

/-- Cauchy–Schwarz over the vocabulary axis. -/
theorem dotW_le_sqrt (V : List String) (hV : V.Nodup) (w₁ w₂ : String → ℝ) :
    dotW V w₁ w₂ ≤ Real.sqrt (sqNormW V w₁) * Real.sqrt (sqNormW V w₂) := by
  have h1 : dotW V w₁ w₂ = ∑ t ∈ V.toFinset, w₁ t * w₂ t :=
    (List.sum_toFinset _ hV).symm
  have h2 : sqNormW V w₁ = ∑ t ∈ V.toFinset, w₁ t ^ 2 := (List.sum_toFinset _ hV).symm
  have h3 : sqNormW V w₂ = ∑ t ∈ V.toFinset, w₂ t ^ 2 := (List.sum_toFinset _ hV).symm
  rw [h1, h2, h3]
  calc (∑ t ∈ V.toFinset, w₁ t * w₂ t)
      ≤ |∑ t ∈ V.toFinset, w₁ t * w₂ t| := le_abs_self _
    _ = Real.sqrt ((∑ t ∈ V.toFinset, w₁ t * w₂ t) ^ 2) := (Real.sqrt_sq_eq_abs _).symm
    _ ≤ Real.sqrt ((∑ t ∈ V.toFinset, w₁ t ^ 2) * ∑ t ∈ V.toFinset, w₂ t ^ 2) :=
        Real.sqrt_le_sqrt (Finset.sum_mul_sq_le_sq_mul_sq V.toFinset w₁ w₂)
    _ = Real.sqrt (∑ t ∈ V.toFinset, w₁ t ^ 2) * Real.sqrt (∑ t ∈ V.toFinset, w₂ t ^ 2) :=
        Real.sqrt_mul (Finset.sum_nonneg fun t _ => sq_nonneg _) _

/-! ## Lemmas about the vocabulary -/

theorem candidateTerms_nodup (dA dB : List String) : (candidateTerms dA dB).Nodup :=
  List.nodup_dedup _

theorem sortedCandidates_perm (dA dB : List String) :
    List.Perm (sortedCandidates dA dB) (candidateTerms dA dB) :=
  List.perm_insertionSort _ _

theorem sortedCandidates_nodup (dA dB : List String) : (sortedCandidates dA dB).Nodup :=
  (sortedCandidates_perm dA dB).symm.nodup (candidateTerms_nodup dA dB)

theorem mem_sortedCandidates {dA dB : List String} {t : String} :
    t ∈ sortedCandidates dA dB ↔ t ∈ dA ++ dB := by
  rw [(sortedCandidates_perm dA dB).mem_iff]
  exact List.mem_dedup

theorem sortedCandidates_comm (dA dB : List String) :
    sortedCandidates dA dB = sortedCandidates dB dA := by
  refine List.eq_of_perm_of_sorted ?_ (List.sorted_insertionSort alphaLe _)
    (List.sorted_insertionSort alphaLe _)
  exact (sortedCandidates_perm dA dB).trans
    (((List.perm_append_comm : List.Perm (dA ++ dB) (dB ++ dA))).dedup.trans
      (sortedCandidates_perm dB dA).symm)

theorem totalTF_comm (dA dB : List String) : totalTF dA dB = totalTF dB dA :=
  funext fun t => by
    unfold totalTF
    rw [List.count_append, List.count_append, Nat.add_comm]

theorem dfT_comm (dA dB : List String) : dfT dA dB = dfT dB dA :=
  funext fun t => by
    unfold dfT
    rw [Nat.add_comm]

theorem vocabulary_comm (maxFeatures : ℕ) (dA dB : List String) :
    vocabulary maxFeatures dA dB = vocabulary maxFeatures dB dA := by
  unfold vocabulary
  rw [sortedCandidates_comm dA dB, totalTF_comm dA dB]

theorem vocabulary_nodup (maxFeatures : ℕ) (dA dB : List String) :
    (vocabulary maxFeatures dA dB).Nodup := by
  unfold vocabulary
  split_ifs
  · exact sortedCandidates_nodup dA dB
  · exact (sortedCandidates_nodup dA dB).filter _

theorem vocabulary_subset (maxFeatures : ℕ) (dA dB : List String) :
    ∀ t ∈ vocabulary maxFeatures dA dB, t ∈ sortedCandidates dA dB := by
  unfold vocabulary
  split_ifs
  · exact fun t ht => ht
  · exact fun t ht => (List.mem_filter.mp ht).1

theorem length_filter_mem {l k : List String} (hl : l.Nodup) (hk : k.Nodup)
    (hsub : ∀ x ∈ k, x ∈ l) :
    (l.filter (fun x => decide (x ∈ k))).length = k.length := by
  have hfn : (l.filter (fun x => decide (x ∈ k))).Nodup := hl.filter _
  have hperm : List.Perm (l.filter (fun x => decide (x ∈ k))) k := by
    apply List.perm_of_nodup_nodup_toFinset_eq hfn hk
    ext x
    simp only [List.mem_toFinset, List.mem_filter, decide_eq_true_eq]
    exact ⟨fun hx => hx.2, fun hx => ⟨hsub x hx, hx⟩⟩
  exact hperm.length_eq

theorem vocabulary_length (maxFeatures : ℕ) (dA dB : List String) :
    (vocabulary maxFeatures dA dB).length
      = min maxFeatures (sortedCandidates dA dB).length := by
  unfold vocabulary
  split_ifs with h
  · rw [min_eq_right h]
  · push_neg at h
    have hsort := List.perm_insertionSort (selR (totalTF dA dB)) (sortedCandidates dA dB)
    have hsortlen : (List.insertionSort (selR (totalTF dA dB))
        (sortedCandidates dA dB)).length = (sortedCandidates dA dB).length :=
      hsort.length_eq
    have hkn : ((List.insertionSort (selR (totalTF dA dB))
        (sortedCandidates dA dB)).take maxFeatures).Nodup :=
      (hsort.symm.nodup (sortedCandidates_nodup dA dB)).sublist (List.take_sublist _ _)
    have hksub : ∀ x ∈ (List.insertionSort (selR (totalTF dA dB))
        (sortedCandidates dA dB)).take maxFeatures, x ∈ sortedCandidates dA dB := by
      intro x hx
      exact hsort.mem_iff.mp ((List.take_sublist _ _).mem hx)
    rw [length_filter_mem (sortedCandidates_nodup dA dB) hkn hksub,
      List.length_take, hsortlen, min_eq_left (le_of_lt h)]

/-! ## Behaviour of the similarity computation -/

theorem candidateTerms_nil_iff (dA dB : List String) :
    candidateTerms dA dB = [] ↔ dA = [] ∧ dB = [] := by
  unfold candidateTerms
  rw [List.dedup_eq_nil, List.append_eq_nil]

/-- Both documents without terms: the vectorizer raises (empty vocabulary). -/
theorem simT_none (maxFeatures : ℕ) : calc_simT maxFeatures [] [] = none := by
  unfold calc_simT
  rw [if_pos]
  rfl

theorem dfT_le_two (dA dB : List String) (t : String) : dfT dA dB t ≤ 2 := by
  unfold dfT
  split_ifs <;> omega

theorem idfR_nonneg {df : ℕ} (h : df ≤ 2) : 0 ≤ idfR df := by
  unfold idfR
  have hdf : (df : ℝ) ≤ 2 := by exact_mod_cast h
  have hpos : (0 : ℝ) < 1 + (df : ℝ) := by positivity
  have hlog : 0 ≤ Real.log ((1 + 2) / (1 + (df : ℝ))) := by
    apply Real.log_nonneg
    rw [le_div_iff₀ hpos]
    linarith
  linarith

theorem idfR_two : idfR 2 = 1 := by
  unfold idfR
  norm_num

theorem rawWeight_nonneg (dA dB doc : List String) (t : String) :
    0 ≤ rawWeight dA dB doc t :=
  mul_nonneg (Nat.cast_nonneg _) (idfR_nonneg (dfT_le_two dA dB t))

theorem rawWeight_nil (dA dB : List String) (t : String) :
    rawWeight dA dB [] t = 0 := by
  unfold rawWeight
  simp

/-- An empty first document against a non-empty one scores 0.0: its row is
the zero vector, and the dot product with anything is 0. -/
theorem simT_left_zero (maxFeatures : ℕ) (dB : List String) (h : dB ≠ []) :
    calc_simT maxFeatures [] dB = some 0 := by
  have hcond : candidateTerms [] dB ≠ [] := by
    intro hc
    rw [candidateTerms_nil_iff] at hc
    exact h hc.2
  unfold calc_simT
  rw [if_neg hcond]
  have hz : ∀ t ∈ vocabulary maxFeatures [] dB, rawWeight [] dB [] t = 0 :=
    fun t _ => rawWeight_nil [] dB t
  have hsq : sqNormW (vocabulary maxFeatures [] dB) (rawWeight [] dB []) = 0 :=
    sqNormW_eq_zero_of _ _ hz
  have e1 : tfidfRow (vocabulary maxFeatures [] dB) [] dB [] = rawWeight [] dB [] := by
    unfold tfidfRow normalizeW
    rw [if_pos hsq]
  have e2 : normalizeW (vocabulary maxFeatures [] dB)
      (tfidfRow (vocabulary maxFeatures [] dB) [] dB []) = rawWeight [] dB [] := by
    rw [e1]
    unfold normalizeW
    rw [if_pos hsq]
  rw [e2]
  exact congrArg some (dotW_zero_left _ _ _ hz)

/-- Symmetric version of `simT_left_zero`. -/
theorem simT_right_zero (maxFeatures : ℕ) (dA : List String) (h : dA ≠ []) :
    calc_simT maxFeatures dA [] = some 0 := by
  have hcond : candidateTerms dA [] ≠ [] := by
    intro hc
    rw [candidateTerms_nil_iff] at hc
    exact h hc.1
  unfold calc_simT
  rw [if_neg hcond]
  have hz : ∀ t ∈ vocabulary maxFeatures dA [], rawWeight dA [] [] t = 0 :=
    fun t _ => rawWeight_nil dA [] t
  have hsq : sqNormW (vocabulary maxFeatures dA []) (rawWeight dA [] []) = 0 :=
    sqNormW_eq_zero_of _ _ hz
  have e1 : tfidfRow (vocabulary maxFeatures dA []) dA [] [] = rawWeight dA [] [] := by
    unfold tfidfRow normalizeW
    rw [if_pos hsq]
  have e2 : normalizeW (vocabulary maxFeatures dA [])
      (tfidfRow (vocabulary maxFeatures dA []) dA [] []) = rawWeight dA [] [] := by
    rw [e1]
    unfold normalizeW
    rw [if_pos hsq]
  rw [e2]
  refine congrArg some ?_
  rw [dotW_comm]
  exact dotW_zero_left _ _ _ hz

/-- Identical non-empty analyzed documents score exactly 1. -/
theorem simT_self_one (maxFeatures : ℕ) (d : List String) (hd : d ≠ [])
    (hm : 0 < maxFeatures) : calc_simT maxFeatures d d = some 1 := by
  have hcand : candidateTerms d d ≠ [] := by
    intro hc
    rw [candidateTerms_nil_iff] at hc
    exact hd hc.1
  have hscne : sortedCandidates d d ≠ [] := by
    intro h0
    apply hcand
    have hp := sortedCandidates_perm d d
    rw [h0] at hp
    exact (hp.symm.eq_nil)
  have hVne : vocabulary maxFeatures d d ≠ [] := by
    have hlen := vocabulary_length maxFeatures d d
    intro h0
    rw [h0, List.length_nil] at hlen
    have hscpos : 0 < (sortedCandidates d d).length := List.length_pos.mpr hscne
    rcases Nat.min_eq_zero_iff.mp hlen.symm with h' | h' <;> omega
  obtain ⟨t, ht⟩ := List.exists_mem_of_ne_nil _ hVne
  have htd : t ∈ d := by
    have hsc := vocabulary_subset maxFeatures d d t ht
    rcases List.mem_append.mp (mem_sortedCandidates.mp hsc) with h | h <;> exact h
  have hcount : 0 < d.count t := List.count_pos_iff.mpr htd
  have hdf : dfT d d t = 2 := by
    unfold dfT
    rw [if_pos hcount]
  have hwt : 1 ≤ rawWeight d d d t := by
    unfold rawWeight
    rw [hdf, idfR_two, mul_one]
    exact_mod_cast hcount
  have hsq_pos : 0 < sqNormW (vocabulary maxFeatures d d) (rawWeight d d d) := by
    have hmem : rawWeight d d d t ^ 2
        ∈ (vocabulary maxFeatures d d).map (fun u => rawWeight d d d u ^ 2) :=
      List.mem_map_of_mem _ ht
    have hle : rawWeight d d d t ^ 2
        ≤ sqNormW (vocabulary maxFeatures d d) (rawWeight d d d) :=
      List.single_le_sum
        (fun x hx => by
          obtain ⟨u, _, rfl⟩ := List.mem_map.mp hx
          exact sq_nonneg _)
        _ hmem
    nlinarith
  have hsq_ne : sqNormW (vocabulary maxFeatures d d) (rawWeight d d d) ≠ 0 :=
    ne_of_gt hsq_pos
  have hrow : sqNormW (vocabulary maxFeatures d d)
      (tfidfRow (vocabulary maxFeatures d d) d d d) = 1 := by
    unfold tfidfRow
    rw [sqNormW_normalizeW, if_neg hsq_ne]
  unfold calc_simT
  rw [if_neg hcand]
  refine congrArg some ?_
  rw [dotW_self, sqNormW_normalizeW, hrow]
  norm_num

/-- The score is symmetric in the two analyzed documents. -/
theorem simT_comm (maxFeatures : ℕ) (dA dB : List String) :
    calc_simT maxFeatures dA dB = calc_simT maxFeatures dB dA := by
  have hcond : (candidateTerms dA dB = []) ↔ (candidateTerms dB dA = []) := by
    rw [candidateTerms_nil_iff, candidateTerms_nil_iff, and_comm]
  have hvoc : vocabulary maxFeatures dA dB = vocabulary maxFeatures dB dA :=
    vocabulary_comm maxFeatures dA dB
  have hraw : rawWeight dA dB = rawWeight dB dA := by
    funext doc t
    unfold rawWeight
    rw [dfT_comm dA dB]
  unfold calc_simT
  by_cases h : candidateTerms dA dB = []
  · rw [if_pos h, if_pos (hcond.mp h)]
  · rw [if_neg h, if_neg (fun h' => h (hcond.mpr h'))]
    unfold tfidfRow
    rw [hvoc, hraw]
    exact congrArg some (dotW_comm _ _ _)

/-- Every returned score lies in `[0, 1]`. -/
theorem simT_range (maxFeatures : ℕ) (dA dB : List String) (r : ℝ)
    (h : calc_simT maxFeatures dA dB = some r) : 0 ≤ r ∧ r ≤ 1 := by
  unfold calc_simT at h
  by_cases hc : candidateTerms dA dB = []
  · rw [if_pos hc] at h
    exact absurd h (by simp)
  · rw [if_neg hc] at h
    have hr := Option.some.inj h
    subst hr
    have hVn := vocabulary_nodup maxFeatures dA dB
    have hnnA : ∀ t, 0 ≤ normalizeW (vocabulary maxFeatures dA dB)
        (tfidfRow (vocabulary maxFeatures dA dB) dA dB dA) t :=
      normalizeW_nonneg _ _ (normalizeW_nonneg _ _ (rawWeight_nonneg dA dB dA))
    have hnnB : ∀ t, 0 ≤ normalizeW (vocabulary maxFeatures dA dB)
        (tfidfRow (vocabulary maxFeatures dA dB) dA dB dB) t :=
      normalizeW_nonneg _ _ (normalizeW_nonneg _ _ (rawWeight_nonneg dA dB dB))
    constructor
    · apply List.sum_nonneg
      intro x hx
      obtain ⟨t, _, rfl⟩ := List.mem_map.mp hx
      exact mul_nonneg (hnnA t) (hnnB t)
    · have hcs := dotW_le_sqrt (vocabulary maxFeatures dA dB) hVn
        (normalizeW (vocabulary maxFeatures dA dB)
          (tfidfRow (vocabulary maxFeatures dA dB) dA dB dA))
        (normalizeW (vocabulary maxFeatures dA dB)
          (tfidfRow (vocabulary maxFeatures dA dB) dA dB dB))
      have hA1 : Real.sqrt (sqNormW (vocabulary maxFeatures dA dB)
          (normalizeW (vocabulary maxFeatures dA dB)
            (tfidfRow (vocabulary maxFeatures dA dB) dA dB dA))) ≤ 1 := by
        rw [show (1 : ℝ) = Real.sqrt 1 from Real.sqrt_one.symm]
        exact Real.sqrt_le_sqrt (sqNorm_normalize_le_one _ _)
      have hB1 : Real.sqrt (sqNormW (vocabulary maxFeatures dA dB)
          (normalizeW (vocabulary maxFeatures dA dB)
            (tfidfRow (vocabulary maxFeatures dA dB) dA dB dB))) ≤ 1 := by
        rw [show (1 : ℝ) = Real.sqrt 1 from Real.sqrt_one.symm]
        exact Real.sqrt_le_sqrt (sqNorm_normalize_le_one _ _)
      calc dotW (vocabulary maxFeatures dA dB) _ _
          ≤ _ := hcs
        _ ≤ 1 * 1 :=
            mul_le_mul hA1 hB1 (Real.sqrt_nonneg _) (by norm_num)
        _ = 1 := by norm_num

/-! ## Single-character tokens -/

theorem flatten_filter_singles (ts : List String) :
    ((ts.filter (fun t => decide (t.length ≠ 1))).map analyze).flatten
      = (ts.map analyze).flatten := by
  induction ts with
  | nil => rfl
  | cons t ts ih =>
    by_cases h : t.length = 1
    · have hd : decide (t.length ≠ 1) = false := by simp [h]
      simp only [List.filter_cons, hd, Bool.false_eq_true, if_false, ih,
        List.map_cons, List.flatten_cons, analyze_singleChar t h, List.nil_append]
    · have hd : decide (t.length ≠ 1) = true := by simp [h]
      simp only [List.filter_cons, hd, if_true, List.map_cons, List.flatten_cons, ih]

theorem flatten_nil_of_all_singles (ts : List String) (h : ∀ t ∈ ts, t.length = 1) :
    ((ts.map analyze)).flatten = [] := by
  induction ts with
  | nil => rfl
  | cons t ts ih =>
    rw [List.map_cons, List.flatten_cons, analyze_singleChar t (h t (by simp)),
      List.nil_append]
    exact ih fun u hu => h u (by simp [hu])

/-! ## Claim theorems -/

/-- C1 (counterexample): the claim "preprocessing either text to an empty
token sequence makes `calculate_similarity` return `0.0` without error" fails
when *both* preprocessed texts are empty: with the stopword set `{的}` both
texts preprocess to empty strings, the vectorizer's vocabulary is empty, and
`fit_transform` raises `ValueError: empty vocabulary` (modelled `none`)
instead of returning `0.0`. -/
theorem c1_counterexample :
    filteredTokens ["的"] spaceCut "的 的" = [] ∧
    calculate_similarity ["的"] spaceCut "的 的" "的" = none ∧
    calculate_similarity ["的"] spaceCut "的 的" "的" ≠ some 0 := by
  have hnone : calculate_similarity ["的"] spaceCut "的 的" "的" = none := by
    have h1 : preprocess_text ["的"] spaceCut "的 的" = "" := by decide
    have h2 : preprocess_text ["的"] spaceCut "的" = "" := by decide
    unfold calculate_similarity similarityOfProcessed
    rw [h1, h2, show analyze "" = [] from rfl]
    exact simT_none 3000
  exact ⟨by decide, hnone, by rw [hnone]; simp⟩

/-- C1 (amended): if preprocessing one text yields an empty token sequence
while the other document still yields at least one vectorizer term, the
similarity is `0.0` without error; if both yield no vectorizer terms, the
vectorizer raises an empty-vocabulary `ValueError` (`none`). -/
theorem c1_zero_if_one_side_empty (stopwords : List String)
    (cut : String → List String) (A B : String) :
    (filteredTokens stopwords cut A = [] →
      analyze (preprocess_text stopwords cut B) ≠ [] →
      calculate_similarity stopwords cut A B = some 0) ∧
    (filteredTokens stopwords cut B = [] →
      analyze (preprocess_text stopwords cut A) ≠ [] →
      calculate_similarity stopwords cut A B = some 0) ∧
    (filteredTokens stopwords cut A = [] → filteredTokens stopwords cut B = [] →
      calculate_similarity stopwords cut A B = none) := by
  refine ⟨fun hA hB => ?_, fun hB hA => ?_, fun hA hB => ?_⟩
  · have hp : preprocess_text stopwords cut A = "" := by
      unfold preprocess_text
      rw [hA]
      rfl
    unfold calculate_similarity similarityOfProcessed
    rw [hp, show analyze "" = [] from rfl]
    exact simT_left_zero 3000 _ hB
  · have hp : preprocess_text stopwords cut B = "" := by
      unfold preprocess_text
      rw [hB]
      rfl
    unfold calculate_similarity similarityOfProcessed
    rw [hp, show analyze "" = [] from rfl]
    exact simT_right_zero 3000 _ hA
  · have hpA : preprocess_text stopwords cut A = "" := by
      unfold preprocess_text
      rw [hA]
      rfl
    have hpB : preprocess_text stopwords cut B = "" := by
      unfold preprocess_text
      rw [hB]
      rfl
    unfold calculate_similarity similarityOfProcessed
    rw [hpA, hpB, show analyze "" = [] from rfl]
    exact simT_none 3000

/-- C1 (witness): the amended claim at concrete inputs — an empty text
against `"xy"` scores `0.0`; two empty texts raise. -/
theorem c1_witness :
    calculate_similarity [] spaceCut "" "xy" = some 0 ∧
    calculate_similarity [] spaceCut "" "" = none :=
  ⟨(c1_zero_if_one_side_empty [] spaceCut "" "xy").1 (by decide) (by decide),
   (c1_zero_if_one_side_empty [] spaceCut "" "").2.2 (by decide) (by decide)⟩

/-- C2: every score `calculate_similarity` returns lies in `[0, 1]` —
the rows of the TF-IDF matrix have non-negative entries and norm at most 1
after normalisation, so their dot product is within the range
(Cauchy–Schwarz). -/
theorem c2_range (stopwords : List String) (cut : String → List String)
    (A B : String) (r : ℝ) (h : calculate_similarity stopwords cut A B = some r) :
    0 ≤ r ∧ r ≤ 1 :=
  simT_range 3000 _ _ r h

/-- C2 (witness): the range theorem applied to the concrete score of
`"ab"` against itself (which is 1). -/
theorem c2_witness : 0 ≤ (1 : ℝ) ∧ (1 : ℝ) ≤ 1 := by
  have h : calculate_similarity [] spaceCut "ab" "ab" = some 1 := by
    have ha : analyze (preprocess_text [] spaceCut "ab") = ["ab"] := by decide
    unfold calculate_similarity similarityOfProcessed
    rw [ha]
    exact simT_self_one 3000 ["ab"] (by decide) (by norm_num)
  exact c2_range [] spaceCut "ab" "ab" 1 h

/-- C3 (counterexample): the claim "non-empty preprocessing implies
`score(A,A) = 1.0`" fails for `A = "x y"`: preprocessing yields the
non-empty token list `["x", "y"]`, but the vectorizer's token pattern
discards single-character tokens, both documents vectorize to nothing, and
the call raises (`none`) rather than returning `1.0`. -/
theorem c3_counterexample :
    filteredTokens [] spaceCut "x y" ≠ [] ∧
    calculate_similarity [] spaceCut "x y" "x y" = none ∧
    calculate_similarity [] spaceCut "x y" "x y" ≠ some 1 := by
  have hnone : calculate_similarity [] spaceCut "x y" "x y" = none := by
    have ha : analyze (preprocess_text [] spaceCut "x y") = [] := by decide
    unfold calculate_similarity similarityOfProcessed
    rw [ha]
    exact simT_none 3000
  exact ⟨by decide, hnone, by rw [hnone]; simp⟩

/-- C3 (amended): self-similarity is exactly 1 for every text whose
preprocessed string still contains at least one term the vectorizer
retains (a run of at least two word characters). -/
theorem c3_self_one (stopwords : List String) (cut : String → List String)
    (A : String) (h : analyze (preprocess_text stopwords cut A) ≠ []) :
    calculate_similarity stopwords cut A A = some 1 := by
  unfold calculate_similarity similarityOfProcessed
  exact simT_self_one 3000 _ h (by norm_num)

/-- C3 (witness): the amended claim at the concrete input `"ab cd"`. -/
theorem c3_witness : calculate_similarity [] spaceCut "ab cd" "ab cd" = some 1 :=
  c3_self_one [] spaceCut "ab cd" (by decide)

/-- C4: `calculate_similarity` is symmetric in its two arguments, including
the error outcome: the vocabulary, the document frequencies and the combined
term frequencies only depend on the unordered pair of documents, and the dot
product is commutative. -/
theorem c4_symmetry (stopwords : List String) (cut : String → List String)
    (A B : String) :
    calculate_similarity stopwords cut A B = calculate_similarity stopwords cut B A :=
  simT_comm 3000 _ _

/-- C6 (counterexample): the claim's "absent **or unreadable** stopword
source degrades non-fatally to the empty set" fails for the unreadable
case.  An absent `stopwords.txt` is caught (`FileNotFoundError`) and the
text `"ç"` passes through the degraded empty-set filter unfiltered; an
existing but unreadable source raises an exception the code does not catch,
and `preprocess_text` produces no result at all instead of proceeding. -/
theorem c6_counterexample :
    preprocess_textFromSource .absent spaceCut "的" = some "的" ∧
    preprocess_textFromSource .unreadable spaceCut "的" = none :=
  ⟨by decide, rfl⟩

/-- C6 (amended): stopword loading and the two filtering modes.  The loader
catches only `FileNotFoundError`: an absent `stopwords.txt` degrades
non-fatally to the empty stopword set, a readable one loads its lines, and
an existing but unreadable or non-UTF-8 source crashes `preprocess_text`
(no result).  With a loaded non-empty stopword set, a text whose every
token is whitespace or a stopword filters to the empty token list; with the
empty stopword set only whitespace tokens are dropped and the terms pass
through unfiltered. -/
theorem c6_loader_and_filter_modes (cut : String → List String) (text : String) :
    (preprocess_textFromSource .absent cut text
      = some (preprocess_text [] cut text)) ∧
    (preprocess_textFromSource .unreadable cut text = none) ∧
    (∀ lines : List String,
      preprocess_textFromSource (.readable lines) cut text
        = some (preprocess_text lines cut text)) ∧
    (∀ stopwords : List String, stopwords ≠ [] →
      (∀ w ∈ cut text, isBlank w = true ∨ w ∈ stopwords) →
      filteredTokens stopwords cut text = []) ∧
    (filteredTokens [] cut text = (cut text).filter (fun w => !(isBlank w))) := by
  refine ⟨rfl, rfl, fun lines => rfl, fun stopwords _ hall => ?_, ?_⟩
  · unfold filteredTokens
    rw [List.filter_eq_nil_iff]
    intro w hw
    rcases hall w hw with hb | hm
    · simp [hb]
    · simp [hm]
  · unfold filteredTokens
    apply List.filter_congr
    intro w _
    simp

/-- C6 (witness): the amended claim at concrete inputs — the unreadable
source yields no result; `"的 的"` with the loaded stopword set `{的}`
filters to nothing; `"x y"` with the empty stopword set passes through (up
to whitespace removal). -/
theorem c6_witness :
    preprocess_textFromSource .unreadable spaceCut "x" = none ∧
    filteredTokens ["的"] spaceCut "的 的" = [] ∧
    filteredTokens [] spaceCut "x y" = (spaceCut "x y").filter (fun w => !(isBlank w)) :=
  ⟨(c6_loader_and_filter_modes spaceCut "x").2.1,
   (c6_loader_and_filter_modes spaceCut "的 的").2.2.2.1 ["的"] (by decide) (by decide),
   (c6_loader_and_filter_modes spaceCut "x y").2.2.2.2⟩

/-- C7: `read_file` over an abstract file system — a missing path or a
non-file path produces a diagnostic and `sys.exit(1)` (non-zero status); a
UTF-8-decodable file returns its UTF-8 decoding; a file whose bytes are not
valid UTF-8 returns the lossy GBK decoding (`errors='ignore'`). -/
theorem c7_read_file_spec (fs : String → Option FSEntry) (p : String) :
    (fs p = none →
      read_file fs p = .fatalExit ("读取文件错误: 文件不存在: " ++ p) 1 ∧ (1 : ℕ) ≠ 0) ∧
    (∀ e, fs p = some e → e.isFile = false →
      read_file fs p = .fatalExit ("读取文件错误: 路径不是文件: " ++ p) 1 ∧ (1 : ℕ) ≠ 0) ∧
    (∀ e s, fs p = some e → e.isFile = true → e.utf8 = some s →
      read_file fs p = .ok s) ∧
    (∀ e, fs p = some e → e.isFile = true → e.utf8 = none →
      read_file fs p = .ok e.gbkLossy) := by
  refine ⟨fun h => ⟨?_, by norm_num⟩,
    fun e he hf => ⟨?_, by norm_num⟩,
    fun e s he hf hu => ?_,
    fun e he hf hu => ?_⟩
  · unfold read_file
    rw [h]
  · unfold read_file
    rw [he]
    simp [hf]
  · unfold read_file
    rw [he]
    simp [hf, hu]
  · unfold read_file
    rw [he]
    simp [hf, hu]

/-- A small concrete file system for the `read_file` witness: a UTF-8
readable file, a GBK-only file, and nothing else. -/
def fsDemo : String → Option FSEntry := fun q =>
  if q = "a.txt" then some ⟨true, some "hello", "hello"⟩
  else if q = "g.txt" then some ⟨true, none, "文本"⟩
  else none

/-- C7 (witness): `read_file` on the concrete file system — a missing file
exits fatally with status 1, the UTF-8 file returns its content, the
non-UTF-8 file returns its GBK decoding. -/
theorem c7_witness :
    (read_file fsDemo "missing.txt"
      = .fatalExit ("读取文件错误: 文件不存在: " ++ "missing.txt") 1 ∧ (1 : ℕ) ≠ 0) ∧
    read_file fsDemo "a.txt" = .ok "hello" ∧
    read_file fsDemo "g.txt" = .ok "文本" :=
  ⟨(c7_read_file_spec fsDemo "missing.txt").1 rfl,
   (c7_read_file_spec fsDemo "a.txt").2.2.1 ⟨true, some "hello", "hello"⟩ "hello" rfl rfl rfl,
   (c7_read_file_spec fsDemo "g.txt").2.2.2 ⟨true, none, "文本"⟩ rfl rfl rfl⟩

/-- C8: invoked with any number of positional arguments other than three
(`len(sys.argv) != 4`), `main` exits with the usage message and status 1,
for every file system, stopword set and tokenizer — i.e. before any
reading, tokenizing, scoring or writing can influence the outcome. -/
theorem c8_usage_exit (fs : String → Option FSEntry) (stopwords : List String)
    (cut : String → List String) (prog : String) (args : List String)
    (h : args.length ≠ 3) :
    main fs stopwords cut (prog :: args) = .usageExit 1 ∧ (1 : ℕ) ≠ 0 := by
  refine ⟨?_, by norm_num⟩
  rcases args with _ | ⟨a, _ | ⟨b, _ | ⟨c, _ | ⟨d, rest⟩⟩⟩⟩
  · rfl
  · rfl
  · rfl
  · exact absurd rfl h
  · rfl

/-- C8 (witness): `main` with a single positional argument exits with the
usage error, regardless of the (empty) file system. -/
theorem c8_witness :
    main (fun _ => none) [] spaceCut ["main.py", "orig.txt"] = .usageExit 1 ∧ (1 : ℕ) ≠ 0 :=
  c8_usage_exit (fun _ => none) [] spaceCut "main.py" ["orig.txt"] (by decide)

/-- C9: single-character terms are invisible to the vectorizer.  Removing
all single-character tokens from both preprocessed texts leaves the result
of `calculate_similarity` unchanged, and two documents whose preprocessed
tokens are all single characters behave exactly like two empty documents
(the vectorizer finds no terms and raises the empty-vocabulary error). -/
theorem c9_single_char_terms (stopwords : List String)
    (cut : String → List String) (A B : String) :
    (similarityOfProcessed
        (joinTokens ((filteredTokens stopwords cut A).filter
          (fun t => decide (t.length ≠ 1))))
        (joinTokens ((filteredTokens stopwords cut B).filter
          (fun t => decide (t.length ≠ 1))))
      = calculate_similarity stopwords cut A B) ∧
    ((∀ t ∈ filteredTokens stopwords cut A, t.length = 1) →
     (∀ t ∈ filteredTokens stopwords cut B, t.length = 1) →
     calculate_similarity stopwords cut A B = none) := by
  constructor
  · unfold calculate_similarity similarityOfProcessed preprocess_text
    simp only [analyze_joinTokens, flatten_filter_singles]
  · intro hA hB
    unfold calculate_similarity similarityOfProcessed preprocess_text
    simp only [analyze_joinTokens]
    rw [flatten_nil_of_all_singles _ hA, flatten_nil_of_all_singles _ hB]
    exact simT_none 3000

/-- C9 (witness): removing the single-character token of `"ab x"` leaves
the score against `"cd"` unchanged, and two all-single-character documents
(`"a b"`, `"c"`) produce the empty-vocabulary outcome. -/
theorem c9_witness :
    (similarityOfProcessed
        (joinTokens ((filteredTokens [] spaceCut "ab x").filter
          (fun t => decide (t.length ≠ 1))))
        (joinTokens ((filteredTokens [] spaceCut "cd").filter
          (fun t => decide (t.length ≠ 1))))
      = calculate_similarity [] spaceCut "ab x" "cd") ∧
    calculate_similarity [] spaceCut "a b" "c" = none :=
  ⟨(c9_single_char_terms [] spaceCut "ab x" "cd").1,
   (c9_single_char_terms [] spaceCut "a b" "c").2 (by decide) (by decide)⟩

/-- C10 (counterexample): the similarity is *not* invariant under
lowercasing a raw input text, because `preprocess_text` runs before the
vectorizer lowercases and its stopword filtering is case-sensitive.  With
the stopword set `{the}`, `"The"` survives preprocessing (score against
itself: 1), while its lowercase form `"the"` is filtered away (score 0). -/
theorem c10_counterexample :
    calculate_similarity ["the"] spaceCut "The" "The" = some 1 ∧
    calculate_similarity ["the"] spaceCut (pyLowerStr "The") "The" = some 0 ∧
    calculate_similarity ["the"] spaceCut (pyLowerStr "The") "The"
      ≠ calculate_similarity ["the"] spaceCut "The" "The" := by
  have h1 : calculate_similarity ["the"] spaceCut "The" "The" = some 1 := by
    have ha : analyze (preprocess_text ["the"] spaceCut "The") = ["the"] := by decide
    unfold calculate_similarity similarityOfProcessed
    rw [ha]
    exact simT_self_one 3000 ["the"] (by decide) (by norm_num)
  have h2 : calculate_similarity ["the"] spaceCut (pyLowerStr "The") "The" = some 0 := by
    have hl : analyze (preprocess_text ["the"] spaceCut (pyLowerStr "The")) = [] := by decide
    have hr : analyze (preprocess_text ["the"] spaceCut "The") = ["the"] := by decide
    unfold calculate_similarity similarityOfProcessed
    rw [hl, hr]
    exact simT_left_zero 3000 ["the"] (by decide)
  exact ⟨h1, h2, by rw [h1, h2]; simp⟩

/-- C10 (amended): the case-invariance the vectorizer's default lowercasing
actually provides — lowercasing the *preprocessed* text (the vectorizer's
input) of either document never changes the score, because the analyzer
lowercases first. -/
theorem c10_lowercase_processed (p q : String) :
    similarityOfProcessed (pyLowerStr p) q = similarityOfProcessed p q := by
  unfold similarityOfProcessed
  rw [analyze_pyLowerStr]

end PlagiarismCheck
